import Mathlib

/-!
# Verification of the data-drift detection engine

Shallow embedding of `src/components/drift-detection/drift_detector.py`.

Modelling conventions:
* Data values are exact rationals (`ℚ`) for numeric columns and `String`s for
  categorical columns; a dataframe is an ordered association list of columns,
  a cell is `Option`-valued (`none` models a missing value / `NaN` cell).
* Statistical scores are real numbers (`ℝ`).  Floating point rounding is not
  modelled; formulas are the exact real-number counterparts of the source.
* `scipy.stats.ks_2samp` and `scipy.stats.chisquare` are external library
  calls, not repository code; their numeric outputs are abstracted as the
  fields of a `ScipyModel` (every theorem that touches them holds for all
  models).  `scipy.stats.entropy` is modelled concretely from its documented
  formula because the Jensen-Shannon bounds depend on it.
* A Python exception escaping a call is modelled by `Option`/`Except` failure.
-/

/-- One column of a dataframe.  A pandas column has a single dtype: it is
either numeric (`float64`-like) or categorical (object/str).  A `none` cell is
a missing value (`NaN`/`None`), removed by `dropna`. -/
inductive ColData
  | numeric (cells : List (Option ℚ))
  | categorical (cells : List (Option String))
deriving Repr, DecidableEq

/-- Non-missing values of a column, as produced by `Series.dropna()`. -/
inductive ColVals
  | numeric (xs : List ℚ)
  | categorical (xs : List String)
deriving Repr, DecidableEq

/-- `column.dropna()` : keep the non-missing cells, in order. -/
def ColData.dropna : ColData → ColVals
  | .numeric cells => .numeric (cells.filterMap id)
  | .categorical cells => .categorical (cells.filterMap id)

/-- Number of values left after `dropna`. -/
def ColVals.length : ColVals → ℕ
  | .numeric xs => xs.length
  | .categorical xs => xs.length

/-- A dataframe: ordered list of named columns (column names unique, as in the
scenarios of the specification). -/
abbrev DataFrame := List (String × ColData)

/-- `col in df.columns` / `df[col]`: first column with the given name. -/
def dfLookup (df : DataFrame) (col : String) : Option ColData :=
  (df.find? (fun p => p.1 = col)).map (fun p => p.2)

/-- Minimum of a list of rationals (`np.min`); junk value `0` on the empty
list, on which the source raises — every use below is guarded by
non-emptiness. -/
def listMin (xs : List ℚ) : ℚ :=
  match xs with
  | [] => 0
  | x :: rest => rest.foldl min x

/-- Maximum of a list of rationals (`np.max`); junk value `0` on `[]`. -/
def listMax (xs : List ℚ) : ℚ :=
  match xs with
  | [] => 0
  | x :: rest => rest.foldl max x

/-- `np.linspace(lo, hi, n+1)[j]`: the `j`-th of the `n+1` equally spaced bin
edges spanning `[lo, hi]` (exact rational arithmetic). -/
def linEdge (lo hi : ℚ) (n : ℕ) (j : ℕ) : ℚ :=
  lo + j * ((hi - lo) / n)

/-- Membership of a value in bin `i` of `np.histogram` with edges
`np.linspace(lo, hi, n+1)`: bins are half-open `[e_i, e_{i+1})` except the
last, which is closed. -/
def inBin (lo hi : ℚ) (n i : ℕ) (x : ℚ) : Bool :=
  decide (linEdge lo hi n i ≤ x) &&
    (if i + 1 = n then decide (x ≤ linEdge lo hi n (i + 1))
     else decide (x < linEdge lo hi n (i + 1)))

/-- Count of sample values falling in bin `i` (`np.histogram` count). -/
def histCount (lo hi : ℚ) (n : ℕ) (xs : List ℚ) (i : ℕ) : ℕ :=
  (xs.filter (fun x => inBin lo hi n i x)).length

/-- The count vector of `np.histogram(xs, bins=np.linspace(lo, hi, n+1))`. -/
def histCounts (lo hi : ℚ) (n : ℕ) (xs : List ℚ) : List ℕ :=
  (List.range n).map (histCount lo hi n xs)

/-- `np.histogram(xs, bins=n)` automatic range: `(0, 1)` for empty data and a
`±0.5` expansion of a degenerate single-point range (numpy
`_get_outer_edges`). -/
def autoRange (xs : List ℚ) : ℚ × ℚ :=
  if xs = [] then (0, 1)
  else if listMin xs = listMax xs then (listMin xs - 1/2, listMax xs + 1/2)
  else (listMin xs, listMax xs)

/-- First-seen-order list of the distinct values of a list
(`pandas.Series.unique`). -/
def firstSeen (xs : List String) : List String :=
  xs.foldl (fun acc x => if x ∈ acc then acc else acc ++ [x]) []

/-- Stable insertion (descending by `key`) used to model the descending
value-count ordering of `pandas.Series.value_counts`. -/
def insertDesc (key : String → ℕ) (c : String) : List String → List String
  | [] => [c]
  | d :: rest =>
      if key d < key c then c :: d :: rest else d :: insertDesc key c rest

/-- Distinct values ordered by descending frequency, ties in first-seen order
(`value_counts` index order). -/
def valueCountsOrder (xs : List String) : List String :=
  (firstSeen xs).foldl (fun acc c => insertDesc (fun d => xs.count d) c acc) []

/-- Per-feature reference statistics stored by
`DriftDetector._compute_reference_statistics`.  The numeric variant keeps the
`mean`/`min`/`max` (as `none` when the column is empty after `dropna`, where
pandas stores `NaN`) and the histogram counts; the source additionally stores
the sample `std` and the three quartiles, which feed only the unmodelled
diagnostic `details` mapping (`std` is an irrational square root) and are
omitted here.  Only the variant tag is ever consulted by the analysis path. -/
inductive FeatureStats
  | numeric (mean mn mx : Option ℚ) (histogram : List ℕ)
  | categorical (distribution : List (String × ℚ)) (categories : List String)
deriving Repr, DecidableEq

/-- The reference statistics computed for one column. -/
def computeFeatureStats (n_bins : ℕ) (c : ColData) : FeatureStats :=
  match c.dropna with
  | .numeric xs =>
      let r := autoRange xs
      .numeric
        (if xs = [] then none else some (xs.sum / xs.length))
        (if xs = [] then none else some (listMin xs))
        (if xs = [] then none else some (listMax xs))
        (histCounts r.1 r.2 n_bins xs)
  | .categorical xs =>
      let cats := valueCountsOrder xs
      .categorical (cats.map (fun c => (c, (xs.count c : ℚ) / xs.length))) cats

/-- Python-dict assignment `stats[col] = v`: replace in place if the key is
present (keeping its position), append otherwise. -/
def dictInsert (k : String) (v : FeatureStats) :
    List (String × FeatureStats) → List (String × FeatureStats)
  | [] => [(k, v)]
  | (k', v') :: rest =>
      if k' = k then (k, v) :: rest else (k', v') :: dictInsert k v rest

/-- Python-dict lookup on the statistics mapping. -/
def dictLookup (stats : List (String × FeatureStats)) (k : String) :
    Option FeatureStats :=
  (stats.find? (fun p => p.1 = k)).map (fun p => p.2)

/-- Abstract model of the two scipy test primitives called by the source
(`scipy.stats.ks_2samp` and `scipy.stats.chisquare`).  These are external
library routines, not repository code; every claim proved below holds for all
values they may return, so only their type is fixed: each maps the two input
arrays to a `(statistic, p_value)` pair. -/
structure ScipyModel where
  ks_2samp : List ℚ → List ℚ → ℝ × ℝ
  chisquare : List ℚ → List ℚ → ℝ × ℝ

/-- `DriftDetector.compute_ks_test`: delegates to `scipy.stats.ks_2samp`,
which raises `ValueError` when either sample is empty (modelled as `none`). -/
def compute_ks_test (S : ScipyModel) (reference current : List ℚ) :
    Option (ℝ × ℝ) :=
  if reference = [] ∨ current = [] then none
  else some (S.ks_2samp reference current)

/-- The Laplace-smoothed per-bin proportion used by `compute_psi`:
`(count_i + 1) / (N + n_bins)`. -/
def laplaceProp (lo hi : ℚ) (n : ℕ) (xs : List ℚ) (i : ℕ) : ℚ :=
  ((histCount lo hi n xs i : ℚ) + 1) / ((xs.length : ℚ) + (n : ℚ))

/-- `DriftDetector.compute_psi`: `n` equal-width bins spanning the combined
range, Laplace-smoothed proportions, `Σ (cur_i - ref_i) * ln(cur_i / ref_i)`.
`np.min`/`np.max` raise on an empty array, modelled as `none`. -/
noncomputable def compute_psi (n : ℕ) (reference current : List ℚ) :
    Option ℝ :=
  if reference = [] ∨ current = [] then none
  else
    let lo := min (listMin reference) (listMin current)
    let hi := max (listMax reference) (listMax current)
    some (((List.range n).map (fun i =>
      ((laplaceProp lo hi n current i : ℝ) - (laplaceProp lo hi n reference i : ℝ)) *
        Real.log ((laplaceProp lo hi n current i : ℝ) /
          (laplaceProp lo hi n reference i : ℝ)))).sum)

/-- `DriftDetector.compute_chi_squared`: union of the categories of both
samples, observed counts plus one (smoothing), then
`scipy.stats.chisquare(cur_freq, f_exp=ref_freq)`.  The source builds the
union as a Python `set`, whose iteration order is arbitrary; the model fixes
first-seen order (no claim depends on the order). -/
def compute_chi_squared (S : ScipyModel) (reference current : List String) :
    ℝ × ℝ :=
  let all_categories := firstSeen (reference ++ current)
  let ref_freq := all_categories.map (fun c => (reference.count c : ℚ) + 1)
  let cur_freq := all_categories.map (fun c => (current.count c : ℚ) + 1)
  S.chisquare cur_freq ref_freq

/-- The `1e-10` smoothing constant of `compute_jensen_shannon`. -/
noncomputable def jsEps : ℝ := 1 / 10000000000

/-- `np.histogram(xs, bins=np.linspace(lo, hi, n+1), density=True)`:
per-bin count divided by bin width and by the total binned count. -/
noncomputable def densityHist (lo hi : ℚ) (n : ℕ) (xs : List ℚ) : List ℝ :=
  let counts := histCounts lo hi n xs
  counts.map (fun (c : ℕ) =>
    (c : ℝ) / ((((hi - lo) / (n : ℚ) : ℚ) : ℝ) * (counts.sum : ℝ)))

/-- The smoothing/renormalization step `(h + 1e-10) / (h.sum() + 1e-10 * len(h))`
applied to a density histogram. -/
noncomputable def smoothNormalize (h : List ℝ) : List ℝ :=
  h.map (fun x => (x + jsEps) / (h.sum + jsEps * (h.length : ℝ)))

/-- `scipy.stats.entropy(pk, qk)`: both vectors are normalized to sum 1, then
the Kullback-Leibler divergence `Σ pk_i * ln(pk_i / qk_i)` is returned
(documented scipy formula; all inputs used below are strictly positive). -/
noncomputable def scipyEntropy (pk qk : List ℝ) : ℝ :=
  ((pk.zip qk).map (fun x =>
    x.1 / pk.sum * Real.log ((x.1 / pk.sum) / (x.2 / qk.sum)))).sum

/-- The final steps of `compute_jensen_shannon` on the two smoothed
probability vectors: midpoint distribution `m = 0.5 * (P + Q)`,
`js_div = 0.5 * (entropy(P, m) + entropy(Q, m))`, square root returned. -/
noncomputable def jsDistance (P Q : List ℝ) : ℝ :=
  Real.sqrt ((scipyEntropy P ((P.zip Q).map (fun x => (x.1 + x.2) / 2)) +
    scipyEntropy Q ((P.zip Q).map (fun x => (x.1 + x.2) / 2))) / 2)

/-- `DriftDetector.compute_jensen_shannon`: density histograms over the
combined range, `1e-10` smoothing, Jensen-Shannon divergence against the
midpoint distribution, square root returned.

Failure cases (`none`): an empty input array (`np.min` raises), and a
degenerate combined range `lo = hi` — there `density=True` divides by the
zero bin widths and the source returns `NaN`, i.e. no real value. -/
noncomputable def compute_jensen_shannon (n : ℕ) (reference current : List ℚ) :
    Option ℝ :=
  if reference = [] ∨ current = [] then none
  else
    let lo := min (listMin reference) (listMin current)
    let hi := max (listMax reference) (listMax current)
    if lo = hi then none
    else
      some (jsDistance (smoothNormalize (densityHist lo hi n reference))
        (smoothNormalize (densityHist lo hi n current)))

/-- `DriftResult` (the `details` diagnostic mapping of the source is not
modelled; it is never read by the engine). -/
structure DriftResult where
  feature : String
  drift_score : ℝ
  ks_statistic : ℝ
  ks_pvalue : ℝ
  psi_score : ℝ
  is_drifted : Bool
  severity : String

/-- `DriftReport` (the wall-clock `timestamp` field is not modelled). -/
structure DriftReport where
  model_name : String
  features_analyzed : ℕ
  features_drifted : ℕ
  overall_drift_score : ℝ
  feature_results : List DriftResult
  recommendation : String

/-- Constructor configuration of `DriftDetector` with the source defaults.
Thresholds are exact rationals, compared against real-valued scores. -/
structure DriftConfig where
  model_name : String
  drift_threshold : ℚ := 1/10
  warning_threshold : ℚ := 1/20
  psi_threshold : ℚ := 1/5
  n_bins : ℕ := 10

/-- Mutable state of a `DriftDetector` instance. -/
structure DriftState where
  cfg : DriftConfig
  reference_data : Option DataFrame
  reference_stats : List (String × FeatureStats)

/-- `DriftDetector.__init__`: no reference data, empty statistics mapping. -/
def DriftDetector_init (cfg : DriftConfig) : DriftState :=
  { cfg := cfg, reference_data := none, reference_stats := [] }

/-- `DriftDetector._compute_reference_statistics`: for each column of the
reference dataframe, in order, assign `reference_stats[col]` (the dict is
updated entry by entry and never cleared). -/
def _compute_reference_statistics (n_bins : ℕ) (d : DataFrame)
    (stats : List (String × FeatureStats)) : List (String × FeatureStats) :=
  d.foldl (fun st p => dictInsert p.1 (computeFeatureStats n_bins p.2) st) stats

/-- `DriftDetector.set_reference_data`: store a copy of the dataframe and
recompute the per-column statistics. -/
def set_reference_data (s : DriftState) (d : DataFrame) : DriftState :=
  { s with
    reference_data := some d
    reference_stats := _compute_reference_statistics s.cfg.n_bins d s.reference_stats }

/-- Errors that can escape `detect_drift`. -/
inductive DriftError
  | referenceNotSet
  | statTestError (feature : String)
deriving Repr, DecidableEq

/-- The severity block at the end of `_analyze_feature`:
`drift_score >= drift_threshold` gives `(is_drifted, severity) = (true,
"critical")`, else `>= warning_threshold` gives `(true, "warning")`, else
`(false, "none")`. -/
noncomputable def classifySeverity (cfg : DriftConfig) (drift_score : ℝ) :
    Bool × String :=
  if (cfg.drift_threshold : ℝ) ≤ drift_score then (true, "critical")
  else if (cfg.warning_threshold : ℝ) ≤ drift_score then (true, "warning")
  else (false, "none")

/-- The `DriftResult` built at the end of `_analyze_feature` from the scores
of the chosen branch. -/
noncomputable def mkDriftResult (cfg : DriftConfig) (feature : String)
    (drift_score ks_statistic ks_pvalue psi_score : ℝ) : DriftResult :=
  { feature := feature
    drift_score := drift_score
    ks_statistic := ks_statistic
    ks_pvalue := ks_pvalue
    psi_score := psi_score
    is_drifted := (classifySeverity cfg drift_score).1
    severity := (classifySeverity cfg drift_score).2 }

/-- `DriftDetector._analyze_feature`.  The branch is chosen by the stored
statistics tag (`ref_stats.get('type') == 'numeric'`); a missing entry falls
to the categorical branch, exactly as `.get(feature_name, {})` does.  A
dtype mismatch between the chosen branch and the actual column values is
modelled as a test failure (in the source the numeric branch would raise a
`TypeError` inside scipy on non-numeric data; the converse corner — the
categorical branch applied to numeric values — is not exercised by any
claim).  A `none` from `compute_jensen_shannon` at a degenerate combined
range corresponds to the source propagating `NaN` scores; the model treats
an undefined statistic as a failing one (no claim distinguishes the two). -/
noncomputable def _analyze_feature (S : ScipyModel) (cfg : DriftConfig)
    (stats : List (String × FeatureStats)) (feature : String)
    (reference current : ColVals) : Option DriftResult :=
  match dictLookup stats feature, reference, current with
  | some (.numeric _ _ _ _), .numeric ref, .numeric cur =>
      match compute_ks_test S ref cur with
      | none => none
      | some kp =>
        match compute_psi cfg.n_bins ref cur with
        | none => none
        | some psi =>
          match compute_jensen_shannon cfg.n_bins ref cur with
          | none => none
          | some js_distance =>
              some (mkDriftResult cfg feature ((kp.1 + js_distance) / 2)
                kp.1 kp.2 psi)
  | some (.numeric _ _ _ _), _, _ => none
  | _, .categorical ref, .categorical cur =>
      some (mkDriftResult cfg feature
        (if 0 < (compute_chi_squared S ref cur).2
          then 1 - (compute_chi_squared S ref cur).2 else 1)
        ((compute_chi_squared S ref cur).1 /
          ((compute_chi_squared S ref cur).1 + (ref.length : ℝ)))
        (compute_chi_squared S ref cur).2 0)
  | _, _, _ => none

/-- The per-feature loop of `detect_drift`: iterate the reference columns in
order; skip a column absent from the current dataframe or empty after
`dropna`; otherwise analyze it, collecting the results in order and summing
the drift scores.  An exception escaping a statistical test aborts the whole
call. -/
noncomputable def processCols (S : ScipyModel) (cfg : DriftConfig)
    (stats : List (String × FeatureStats)) (current_data : DataFrame) :
    List (String × ColData) → Except DriftError (List DriftResult × ℝ)
  | [] => .ok ([], 0)
  | (col, refcol) :: rest =>
    match dfLookup current_data col with
    | none => processCols S cfg stats current_data rest
    | some curcol =>
      if curcol.dropna.length = 0 then processCols S cfg stats current_data rest
      else
        match _analyze_feature S cfg stats col refcol.dropna curcol.dropna with
        | none => .error (.statTestError col)
        | some r =>
          match processCols S cfg stats current_data rest with
          | .error e => .error e
          | .ok (rs, total) => .ok (r :: rs, r.drift_score + total)

/-- `DriftDetector._generate_recommendation` (the interpolated drift
percentage, a formatted float, is elided from the strings). -/
noncomputable def _generate_recommendation (cfg : DriftConfig)
    (n_drifted n_features : ℕ) (overall_score : ℝ) : String :=
  if (cfg.drift_threshold : ℝ) ≤ overall_score then
    "CRITICAL: Significant drift detected in " ++ toString n_drifted ++ "/" ++
      toString n_features ++
      " features. Immediate model retraining recommended. Review feature pipelines for data quality issues."
  else if (cfg.warning_threshold : ℝ) ≤ overall_score then
    "WARNING: Moderate drift detected in " ++ toString n_drifted ++ "/" ++
      toString n_features ++
      " features. Schedule model retraining and investigate root causes of drift."
  else
    "OK: No significant drift detected. " ++ toString n_features ++
      " features analyzed. Continue monitoring."

/-- `DriftDetector.detect_drift`.  Fails with the distinct
`referenceNotSet` error when no reference is configured; otherwise runs the
per-feature loop and synthesizes the report:
`overall_drift_score = total / n_features` when `n_features > 0`, else `0`. -/
noncomputable def detect_drift (S : ScipyModel) (s : DriftState)
    (current_data : DataFrame) : Except DriftError DriftReport :=
  match s.reference_data with
  | none => .error .referenceNotSet
  | some ref =>
    match processCols S s.cfg s.reference_stats current_data ref with
    | .error e => .error e
    | .ok (feature_results, total_drift_score) =>
      let n_features := feature_results.length
      let n_drifted := (feature_results.filter (fun r => r.is_drifted)).length
      let overall_score :=
        if 0 < n_features then total_drift_score / (n_features : ℝ) else 0
      .ok
        { model_name := s.cfg.model_name
          features_analyzed := n_features
          features_drifted := n_drifted
          overall_drift_score := overall_score
          feature_results := feature_results
          recommendation :=
            _generate_recommendation s.cfg n_drifted n_features overall_score }

/-- The columns of the reference dataframe retained (not skipped) by the
`detect_drift` loop for a given current dataframe: present in the current
dataframe and non-empty there after `dropna`. -/
def keptCols (current_data : DataFrame) (cols : List (String × ColData)) :
    List (String × ColData) :=
  cols.filter (fun p =>
    match dfLookup current_data p.1 with
    | none => false
    | some c => decide (¬ c.dropna.length = 0))

/-! ## Concrete fixtures used by witnesses and counterexamples -/

/-- A concrete instantiation of the abstract scipy primitives, used only to
evaluate witnesses: KS returns `(0, 1)`, chi-squared returns `(1, 1/2)`. -/
noncomputable def pm0 : ScipyModel :=
  { ks_2samp := fun _ _ => ((0 : ℝ), (1 : ℝ))
    chisquare := fun _ _ => ((1 : ℝ), (1 : ℝ) / 2) }

/-- Default-threshold configuration (`drift_threshold 0.1`,
`warning_threshold 0.05`, `n_bins 10`). -/
def cfg0 : DriftConfig := { model_name := "m" }

/-- Reference dataframe of the missing-feature scenario: features
`A`, `B`, `C`. -/
def EX_ref : DataFrame :=
  [("A", ColData.numeric [some 0, some 1]),
   ("B", ColData.numeric [some 0, some 1]),
   ("C", ColData.categorical [some "a", some "b"])]

/-- Current dataframe providing only `A` and `C`. -/
def EX_cur : DataFrame :=
  [("A", ColData.numeric [some 0, some 1]),
   ("C", ColData.categorical [some "a"])]

/-- Detector state after `set_reference_data(EX_ref)`. -/
def sEx : DriftState := set_reference_data (DriftDetector_init cfg0) EX_ref

/-- First reference dataframe for the statistics-retention scenario. -/
def EX_d1 : DataFrame :=
  [("A", ColData.numeric [some 0, some 1]), ("B", ColData.numeric [some 2])]

/-- Second, smaller reference dataframe (column `B` gone). -/
def EX_d2 : DataFrame := [("A", ColData.numeric [some 5])]

/-- Detector state after the first `set_reference_data(EX_d1)`. -/
def sEx1 : DriftState := set_reference_data (DriftDetector_init cfg0) EX_d1

/-! ## Helper lemmas about the statistics dictionary -/

theorem dictLookup_dictInsert_self (k : String) (v : FeatureStats)
    (st : List (String × FeatureStats)) :
    dictLookup (dictInsert k v st) k = some v := by
  induction st with
  | nil => simp [dictInsert, dictLookup]
  | cons p rest ih =>
      by_cases hk : p.1 = k
      · simp [dictInsert, dictLookup, hk]
      · simpa [dictInsert, dictLookup, hk] using ih

theorem dictLookup_cons (q : String × FeatureStats)
    (rest : List (String × FeatureStats)) (c : String) :
    dictLookup (q :: rest) c =
      if q.1 = c then some q.2 else dictLookup rest c := by
  by_cases h : q.1 = c <;> simp [dictLookup, List.find?_cons, h]

theorem dictLookup_dictInsert_ne (k c : String) (v : FeatureStats)
    (st : List (String × FeatureStats)) (hne : k ≠ c) :
    dictLookup (dictInsert k v st) c = dictLookup st c := by
  induction st with
  | nil => simp [dictInsert, dictLookup_cons, dictLookup, hne]
  | cons p rest ih =>
      by_cases hk : p.1 = k
      · rw [show dictInsert k v (p :: rest) = (k, v) :: rest from by
          simp [dictInsert, hk], dictLookup_cons, dictLookup_cons,
          if_neg hne, hk, if_neg hne]
      · rw [show dictInsert k v (p :: rest) = p :: dictInsert k v rest from by
          simp [dictInsert, hk], dictLookup_cons, dictLookup_cons, ih]

theorem stats_fold_lookup_notMem (n_bins : ℕ) (d : DataFrame)
    (st : List (String × FeatureStats)) (c : String)
    (hc : c ∉ d.map Prod.fst) :
    dictLookup (_compute_reference_statistics n_bins d st) c = dictLookup st c := by
  induction d generalizing st with
  | nil => rfl
  | cons p rest ih =>
      simp only [List.map_cons, List.mem_cons, not_or] at hc
      have step : _compute_reference_statistics n_bins (p :: rest) st =
          _compute_reference_statistics n_bins rest
            (dictInsert p.1 (computeFeatureStats n_bins p.2) st) := rfl
      rw [step, ih _ hc.2, dictLookup_dictInsert_ne _ _ _ _ (fun h => hc.1 h.symm)]

theorem stats_fold_lookup_mem (n_bins : ℕ) (d : DataFrame)
    (st : List (String × FeatureStats)) (hnd : (d.map Prod.fst).Nodup) :
    ∀ p ∈ d, dictLookup (_compute_reference_statistics n_bins d st) p.1 =
      some (computeFeatureStats n_bins p.2) := by
  induction d generalizing st with
  | nil => intro p hp; cases hp
  | cons q rest ih =>
      simp only [List.map_cons, List.nodup_cons] at hnd
      intro p hp
      have step : _compute_reference_statistics n_bins (q :: rest) st =
          _compute_reference_statistics n_bins rest
            (dictInsert q.1 (computeFeatureStats n_bins q.2) st) := rfl
      rcases List.mem_cons.mp hp with hq | hrest
      · subst hq
        rw [step, stats_fold_lookup_notMem _ _ _ _ hnd.1,
          dictLookup_dictInsert_self]
      · exact step ▸ ih _ hnd.2 p hrest

/-! ## Helper lemmas about `_analyze_feature` and the detection loop -/

theorem analyze_some_mk {S : ScipyModel} {cfg : DriftConfig}
    {stats : List (String × FeatureStats)} {f : String} {rv cv : ColVals}
    {r : DriftResult} (h : _analyze_feature S cfg stats f rv cv = some r) :
    ∃ ds ks kp ps, r = mkDriftResult cfg f ds ks kp ps := by
  unfold _analyze_feature at h
  split at h
  · split at h
    · exact absurd h (by simp)
    · split at h
      · exact absurd h (by simp)
      · split at h
        · exact absurd h (by simp)
        · exact ⟨_, _, _, _, (Option.some.inj h).symm⟩
  · exact absurd h (by simp)
  · exact ⟨_, _, _, _, (Option.some.inj h).symm⟩
  · exact absurd h (by simp)

theorem analyze_feature_name {S : ScipyModel} {cfg : DriftConfig}
    {stats : List (String × FeatureStats)} {f : String} {rv cv : ColVals}
    {r : DriftResult} (h : _analyze_feature S cfg stats f rv cv = some r) :
    r.feature = f := by
  obtain ⟨ds, ks, kp, ps, rfl⟩ := analyze_some_mk h
  rfl

theorem processCols_ok_shape {S : ScipyModel} {cfg : DriftConfig}
    {stats : List (String × FeatureStats)} {cur : DataFrame}
    {cols : List (String × ColData)} {rs : List DriftResult} {t : ℝ}
    (h : processCols S cfg stats cur cols = .ok (rs, t)) :
    rs.map (fun x => x.feature) = (keptCols cur cols).map Prod.fst ∧
      t = (rs.map (fun x => x.drift_score)).sum := by
  induction cols generalizing rs t with
  | nil =>
      unfold processCols at h
      cases h
      simp [keptCols]
  | cons p rest ih =>
      unfold processCols at h
      split at h
      case _ hdf =>
          have := ih h
          simpa [keptCols, List.filter_cons, hdf] using this
      case _ curcol hdf =>
          split at h
          case isTrue hlen =>
              have := ih h
              simpa [keptCols, List.filter_cons, hdf, hlen] using this
          case isFalse hlen =>
              split at h
              case _ han => exact absurd h (by simp)
              case _ r0 han =>
                  split at h
                  case _ e hrest => exact absurd h (by simp)
                  case _ rs' total' hrest =>
                      cases h
                      obtain ⟨ih1, ih2⟩ := ih hrest
                      constructor
                      · simpa [keptCols, List.filter_cons, hdf, hlen, ih1]
                          using analyze_feature_name han
                      · simp [ih2]

/-! ## Claim theorems -/

/-- C3: calling `detect_drift` before any call to `set_reference_data` fails
immediately with the distinct `referenceNotSet` error (the source raises
`ValueError("Reference data not set. Call set_reference_data first.")`) and
never returns a report. -/
theorem detect_without_reference_fails (S : ScipyModel) (s : DriftState)
    (cur : DataFrame) (h : s.reference_data = none) :
    detect_drift S s cur = .error .referenceNotSet := by
  unfold detect_drift
  rw [h]

/-- Witness for C3: a freshly initialized detector fails this way. -/
theorem detect_without_reference_fails_witness :
    detect_drift pm0 (DriftDetector_init cfg0) [] = .error .referenceNotSet :=
  detect_without_reference_fails pm0 (DriftDetector_init cfg0) [] rfl

/-- C8 counterexample: a zero-column reference dataframe is accepted by
`set_reference_data`, and the subsequent `detect_drift` call succeeds,
returning a report with `features_analyzed = 0` — the claim says this must
not happen. -/
theorem empty_reference_counterexample :
    ∃ r, detect_drift pm0 (set_reference_data (DriftDetector_init cfg0) [])
        [("A", ColData.numeric [some 1])] = .ok r ∧
      r.features_analyzed = 0 := by
  exact ⟨_, rfl, rfl⟩

/-- C8 amended: supplying an empty (zero-column) reference dataset is not
rejected: `set_reference_data` succeeds, and any subsequent `detect_drift`
succeeds and returns a report with zero features analyzed and overall drift
score `0.0`. -/
theorem empty_reference_amended (S : ScipyModel) (s : DriftState)
    (cur : DataFrame) :
    ∃ r, detect_drift S (set_reference_data s []) cur = .ok r ∧
      r.features_analyzed = 0 ∧ r.overall_drift_score = 0 := by
  refine ⟨_, rfl, rfl, ?_⟩
  simp

/-- C1: for every successful detection run, `overall_drift_score` is the
arithmetic mean of the `drift_score` values of the produced `DriftResult`
entries, and `0.0` when `features_analyzed` is zero (and
`features_analyzed` counts exactly the produced entries). -/
theorem detect_overall_mean (S : ScipyModel) (s : DriftState)
    (cur : DataFrame) (r : DriftReport) (h : detect_drift S s cur = .ok r) :
    r.features_analyzed = r.feature_results.length ∧
    (r.features_analyzed = 0 → r.overall_drift_score = 0) ∧
    (r.features_analyzed ≠ 0 →
      r.overall_drift_score =
        (r.feature_results.map (fun x => x.drift_score)).sum /
          (r.features_analyzed : ℝ)) := by
  unfold detect_drift at h
  split at h
  · exact absurd h (by simp)
  case _ ref =>
    split at h
    case _ e hpc => exact absurd h (by simp)
    case _ rs total hpc =>
      cases h
      obtain ⟨-, htot⟩ := processCols_ok_shape hpc
      refine ⟨rfl, fun h0 => ?_, fun h0 => ?_⟩
      · have hl : rs.length = 0 := h0
        show (if 0 < rs.length then total / (rs.length : ℝ) else 0) = 0
        rw [hl]
        simp
      · have hl : rs.length ≠ 0 := h0
        show (if 0 < rs.length then total / (rs.length : ℝ) else 0) =
          (rs.map (fun x => x.drift_score)).sum / ((rs.length : ℕ) : ℝ)
        rw [if_pos (Nat.pos_of_ne_zero hl), htot]

/-- Witness for C1: the `A, B, C` versus `A, C` scenario yields a report
with two analyzed features whose overall score is the mean of their drift
scores. -/
theorem detect_overall_mean_witness :
    ∃ r, detect_drift pm0 sEx EX_cur = .ok r ∧ r.features_analyzed ≠ 0 ∧
      r.overall_drift_score =
        (r.feature_results.map (fun x => x.drift_score)).sum /
          (r.features_analyzed : ℝ) :=
  ⟨_, rfl, by decide,
    (detect_overall_mean pm0 sEx EX_cur _ rfl).2.2 (by decide)⟩

/-- C4: every reference feature absent from the current dataframe, or empty
there after `dropna`, is skipped without raising: on a successful run the
produced results are exactly the retained reference columns, in order, and
`features_analyzed` counts exactly those. -/
theorem skipped_features_excluded (S : ScipyModel) (s : DriftState)
    (rd cur : DataFrame) (r : DriftReport)
    (href : s.reference_data = some rd) (h : detect_drift S s cur = .ok r) :
    r.feature_results.map (fun x => x.feature) =
      (keptCols cur rd).map Prod.fst ∧
    r.features_analyzed = (keptCols cur rd).length := by
  unfold detect_drift at h
  split at h
  case _ heq => rw [href] at heq; exact absurd heq (by simp)
  case _ ref heq =>
    rw [href] at heq
    obtain rfl := Option.some.inj heq
    split at h
    case _ e hpc => exact absurd h (by simp)
    case _ rs total hpc =>
      cases h
      obtain ⟨h1, -⟩ := processCols_ok_shape hpc
      refine ⟨h1, ?_⟩
      have := congrArg List.length h1
      simpa using this

/-- Witness for C4: reference features `{A, B, C}` with current data
providing only `{A, C}` give `features_analyzed = 2` and no entry for `B`. -/
theorem skipped_features_excluded_witness :
    ∃ r, detect_drift pm0 sEx EX_cur = .ok r ∧
      r.feature_results.map (fun x => x.feature) = ["A", "C"] ∧
      r.features_analyzed = 2 := by
  refine ⟨_, rfl, ?_, ?_⟩
  · rw [(skipped_features_excluded pm0 sEx EX_ref EX_cur _ rfl rfl).1]
    decide
  · rw [(skipped_features_excluded pm0 sEx EX_ref EX_cur _ rfl rfl).2]
    decide

/-- C10: after `set_reference_data(d)` the statistics mapping holds a freshly
computed entry for every column of `d`; entries for columns not in `d` are
retained unchanged from before (the dict is updated column by column, never
cleared); and `detect_drift` nevertheless only produces results for columns
of the most recent reference dataframe. -/
theorem reference_stats_update (s : DriftState) (d : DataFrame)
    (hnd : (d.map Prod.fst).Nodup) :
    (∀ p ∈ d, dictLookup (set_reference_data s d).reference_stats p.1 =
        some (computeFeatureStats s.cfg.n_bins p.2)) ∧
    (∀ c, c ∉ d.map Prod.fst →
        dictLookup (set_reference_data s d).reference_stats c =
          dictLookup s.reference_stats c) ∧
    (∀ S cur r, detect_drift S (set_reference_data s d) cur = .ok r →
        ∀ x ∈ r.feature_results, x.feature ∈ d.map Prod.fst) := by
  refine ⟨stats_fold_lookup_mem _ _ _ hnd,
    fun c hc => stats_fold_lookup_notMem _ _ _ _ hc, ?_⟩
  intro S cur r h x hx
  unfold detect_drift at h
  split at h
  case _ heq => exact absurd heq (by simp [set_reference_data])
  case _ ref heq =>
    have hd : (set_reference_data s d).reference_data = some d := rfl
    rw [hd] at heq
    obtain rfl := Option.some.inj heq
    split at h
    case _ e hpc => exact absurd h (by simp)
    case _ rs total hpc =>
      cases h
      obtain ⟨h1, -⟩ := processCols_ok_shape hpc
      have hmem : x.feature ∈ (keptCols cur d).map Prod.fst :=
        h1 ▸ List.mem_map_of_mem _ hx
      obtain ⟨p, hp, hfp⟩ := List.mem_map.mp hmem
      exact hfp ▸ List.mem_map_of_mem Prod.fst (List.mem_of_mem_filter hp)

/-- Witness for C10: after re-pointing the reference from `{A, B}` to `{A}`,
column `A`'s entry is freshly computed from the new data while column `B`'s
stale entry is retained. -/
theorem reference_stats_update_witness :
    dictLookup (set_reference_data sEx1 EX_d2).reference_stats "A" =
      some (computeFeatureStats 10 (ColData.numeric [some 5])) ∧
    dictLookup (set_reference_data sEx1 EX_d2).reference_stats "B" =
      dictLookup sEx1.reference_stats "B" := by
  have h := reference_stats_update sEx1 EX_d2 (by decide)
  exact ⟨h.1 ("A", ColData.numeric [some 5]) (by simp [EX_d2]),
    h.2.1 "B" (by decide)⟩

/-! ## Projection lemmas for the result constructor -/

theorem mkDriftResult_drift_score (cfg : DriftConfig) (f : String)
    (ds ks kp ps : ℝ) : (mkDriftResult cfg f ds ks kp ps).drift_score = ds := rfl

theorem mkDriftResult_severity (cfg : DriftConfig) (f : String)
    (ds ks kp ps : ℝ) :
    (mkDriftResult cfg f ds ks kp ps).severity =
      (classifySeverity cfg ds).2 := rfl

theorem mkDriftResult_is_drifted (cfg : DriftConfig) (f : String)
    (ds ks kp ps : ℝ) :
    (mkDriftResult cfg f ds ks kp ps).is_drifted =
      (classifySeverity cfg ds).1 := rfl

/-- Shape of the categorical branch of `_analyze_feature`: any produced
result is the `mkDriftResult` of the chi-squared-derived scores. -/
theorem analyze_categorical_shape {S : ScipyModel} {cfg : DriftConfig}
    {stats : List (String × FeatureStats)} {f : String}
    {ref cur : List String} {r : DriftResult}
    (h : _analyze_feature S cfg stats f (.categorical ref)
      (.categorical cur) = some r) :
    r = mkDriftResult cfg f
      (if 0 < (compute_chi_squared S ref cur).2
        then 1 - (compute_chi_squared S ref cur).2 else 1)
      ((compute_chi_squared S ref cur).1 /
        ((compute_chi_squared S ref cur).1 + (ref.length : ℝ)))
      (compute_chi_squared S ref cur).2 0 := by
  unfold _analyze_feature at h
  split at h
  case h_1 =>
    rename_i heqr heqc
    exact ColVals.noConfusion heqr
  case h_2 => exact Option.noConfusion h
  case h_3 =>
    rename_i heqr heqc hnum
    injection heqr with e1
    injection heqc with e2
    subst e1
    subst e2
    exact (Option.some.inj h).symm
  case h_4 => exact Option.noConfusion h

/-- C2: for every analyzed feature (numeric or categorical), given
`warning_threshold ≤ drift_threshold`: a drift score at or above
`drift_threshold` is classified `critical` and drifted; below it but at or
above `warning_threshold`, `warning` and drifted; below `warning_threshold`,
`none` and not drifted — so the severity transitions
`none → warning → critical` exactly at the two thresholds. -/
theorem severity_threshold_classification (S : ScipyModel)
    (cfg : DriftConfig) (stats : List (String × FeatureStats)) (f : String)
    (rv cv : ColVals) (r : DriftResult)
    (hth : cfg.warning_threshold ≤ cfg.drift_threshold)
    (h : _analyze_feature S cfg stats f rv cv = some r) :
    ((cfg.drift_threshold : ℝ) ≤ r.drift_score →
      r.severity = "critical" ∧ r.is_drifted = true) ∧
    (r.drift_score < (cfg.drift_threshold : ℝ) →
      (cfg.warning_threshold : ℝ) ≤ r.drift_score →
      r.severity = "warning" ∧ r.is_drifted = true) ∧
    (r.drift_score < (cfg.warning_threshold : ℝ) →
      r.severity = "none" ∧ r.is_drifted = false) := by
  obtain ⟨ds, ks, kp, ps, rfl⟩ := analyze_some_mk h
  simp only [mkDriftResult_drift_score, mkDriftResult_severity,
    mkDriftResult_is_drifted]
  unfold classifySeverity
  refine ⟨fun h1 => ?_, fun h1 h2 => ?_, fun h1 => ?_⟩
  · rw [if_pos h1]; exact ⟨rfl, rfl⟩
  · rw [if_neg (not_le.mpr h1), if_pos h2]; exact ⟨rfl, rfl⟩
  · have hq : (cfg.warning_threshold : ℝ) ≤ (cfg.drift_threshold : ℝ) := by
      exact_mod_cast hth
    rw [if_neg (not_le.mpr (lt_of_lt_of_le h1 hq)), if_neg (not_le.mpr h1)]
    exact ⟨rfl, rfl⟩

/-- Witness for C2: a categorical feature whose chi-squared p-value is `1/2`
gets drift score `1/2 ≥ drift_threshold = 1/10`, hence severity `critical`
and `is_drifted = true`. -/
theorem severity_threshold_classification_witness :
    ∃ r, _analyze_feature pm0 cfg0 [] "f" (.categorical ["a"])
        (.categorical ["b"]) = some r ∧
      r.severity = "critical" ∧ r.is_drifted = true := by
  refine ⟨_, rfl, ?_⟩
  have h := severity_threshold_classification pm0 cfg0 [] "f"
    (.categorical ["a"]) (.categorical ["b"]) _ (by norm_num [cfg0]) rfl
  refine h.1 ?_
  show ((1/10 : ℚ) : ℝ) ≤ (if 0 < ((1:ℝ)/2) then 1 - (1:ℝ)/2 else 1)
  rw [if_pos (by norm_num)]
  norm_num

/-- C6: every categorical `DriftResult` has `psi_score = 0`, carries the
chi-squared p-value in `ks_pvalue`, carries the normalization
`chi_stat / (chi_stat + len(reference))` in `ks_statistic`, and has
`drift_score = 1 - chi_pvalue` when the p-value is positive and `1.0` when
it is zero. -/
theorem categorical_result_fields (S : ScipyModel) (cfg : DriftConfig)
    (stats : List (String × FeatureStats)) (f : String)
    (ref cur : List String) (r : DriftResult)
    (h : _analyze_feature S cfg stats f (.categorical ref)
      (.categorical cur) = some r) :
    r.psi_score = 0 ∧
    r.ks_pvalue = (compute_chi_squared S ref cur).2 ∧
    r.ks_statistic = (compute_chi_squared S ref cur).1 /
      ((compute_chi_squared S ref cur).1 + (ref.length : ℝ)) ∧
    (0 < (compute_chi_squared S ref cur).2 →
      r.drift_score = 1 - (compute_chi_squared S ref cur).2) ∧
    ((compute_chi_squared S ref cur).2 = 0 → r.drift_score = 1) := by
  obtain rfl := analyze_categorical_shape h
  refine ⟨rfl, rfl, rfl, fun hp => ?_, fun hp => ?_⟩
  · rw [mkDriftResult_drift_score, if_pos hp]
  · rw [mkDriftResult_drift_score, if_neg (by rw [hp]; exact lt_irrefl 0)]

/-- Witness for C6: the concrete categorical feature of the fixture,
analyzed under the chi-squared model returning `(1, 1/2)`. -/
theorem categorical_result_fields_witness :
    ∃ r, _analyze_feature pm0 cfg0 [] "f" (.categorical ["a"])
        (.categorical ["b"]) = some r ∧
      r.psi_score = 0 ∧
      r.ks_pvalue = (compute_chi_squared pm0 ["a"] ["b"]).2 ∧
      r.ks_statistic = (compute_chi_squared pm0 ["a"] ["b"]).1 /
        ((compute_chi_squared pm0 ["a"] ["b"]).1 + ((1 : ℕ) : ℝ)) ∧
      r.drift_score = 1 - (compute_chi_squared pm0 ["a"] ["b"]).2 := by
  have h := categorical_result_fields pm0 cfg0 [] "f" ["a"] ["b"] _ rfl
  exact ⟨_, rfl, h.1, h.2.1, h.2.2.1,
    h.2.2.2.1 (by show (0:ℝ) < (1:ℝ)/2; norm_num)⟩

/-- If the reference profile is set and the per-feature loop fails, the whole
`detect_drift` call fails with that error. -/
theorem detect_drift_error_of_processCols (S : ScipyModel) (s : DriftState)
    (cur rd : DataFrame) (e : DriftError)
    (h1 : s.reference_data = some rd)
    (h2 : processCols S s.cfg s.reference_stats cur rd = .error e) :
    detect_drift S s cur = .error e := by
  unfold detect_drift
  split
  case _ hn => rw [h1] at hn; exact Option.noConfusion hn
  case _ ref heq =>
    rw [h1] at heq
    obtain rfl := Option.some.inj heq
    rw [h2]

/-- `_analyze_feature` on a numeric feature whose reference values are empty
always fails: `scipy.stats.ks_2samp` raises on an empty sample before any
skip logic could intervene. -/
theorem analyze_numeric_empty_ref (S : ScipyModel) (cfg : DriftConfig)
    (stats : List (String × FeatureStats)) (f : String) (cur : List ℚ) :
    _analyze_feature S cfg stats f (.numeric []) (.numeric cur) = none := by
  unfold _analyze_feature
  split
  case h_1 =>
    rename_i heqd heqr heqc
    injection heqr with e1
    injection heqc with e2
    subst e1
    subst e2
    rw [show compute_ks_test S [] cur = none from by simp [compute_ks_test]]
  case h_2 => rfl
  case h_3 =>
    rename_i hA hB hC
    exact ColVals.noConfusion hA
  case h_4 => rfl

/-- C9: a reference column that is entirely missing (empty after per-column
`dropna`) while the current dataframe has non-missing values for it is NOT
covered by the skip checks (those only test the current column): the feature
is analyzed and `detect_drift` fails from inside the statistical tests. -/
theorem empty_reference_column_raises (S : ScipyModel) (s0 : DriftState)
    (c : String) (rcells ccells : List (Option ℚ))
    (href : rcells.filterMap id = [])
    (hcur : ccells.filterMap id ≠ []) :
    detect_drift S (set_reference_data s0 [(c, ColData.numeric rcells)])
      [(c, ColData.numeric ccells)] = .error (.statTestError c) := by
  apply detect_drift_error_of_processCols S _ [(c, ColData.numeric ccells)]
    [(c, ColData.numeric rcells)] _ rfl
  have hana : _analyze_feature S
      (set_reference_data s0 [(c, ColData.numeric rcells)]).cfg
      (set_reference_data s0 [(c, ColData.numeric rcells)]).reference_stats c
      (ColData.numeric rcells).dropna (ColData.numeric ccells).dropna = none := by
    have hdrop : (ColData.numeric rcells).dropna = ColVals.numeric [] := by
      simp [ColData.dropna, href]
    rw [hdrop]
    exact analyze_numeric_empty_ref _ _ _ _ _
  unfold processCols
  split
  case _ hdf => simp [dfLookup] at hdf
  case _ curcol hdf =>
    have hcc : curcol = ColData.numeric ccells := by
      simp [dfLookup] at hdf
      exact hdf.symm
    subst hcc
    rw [if_neg (by
      simpa [ColData.dropna, ColVals.length, List.length_eq_zero] using hcur)]
    rw [hana]

/-- Witness for C9: a one-column frame whose reference cell is missing and
whose current cell is present makes `detect_drift` raise from the KS test. -/
theorem empty_reference_column_raises_witness :
    detect_drift pm0 (set_reference_data (DriftDetector_init cfg0)
        [("x", ColData.numeric [none])])
      [("x", ColData.numeric [some 1])] = .error (.statTestError "x") :=
  empty_reference_column_raises pm0 (DriftDetector_init cfg0) "x"
    [none] [some 1] rfl (by simp)

/-- Positivity of the Laplace-smoothed proportions: with a non-empty sample
every smoothed bin proportion is strictly positive. -/
theorem laplaceProp_pos (lo hi : ℚ) (n : ℕ) (xs : List ℚ) (i : ℕ)
    (hxs : xs ≠ []) : 0 < laplaceProp lo hi n xs i := by
  unfold laplaceProp
  apply div_pos
  · positivity
  · have hlen : (0 : ℚ) < (xs.length : ℚ) := by
      exact_mod_cast List.length_pos.mpr hxs
    have hn : (0 : ℚ) ≤ (n : ℚ) := by positivity
    linarith

/-- C5: for every pair of non-empty numeric arrays (constant arrays
included), `compute_psi` succeeds (never a division-by-zero or
logarithm-domain error): it returns the sum
`Σ (cur_i - ref_i) * ln(cur_i / ref_i)` over the Laplace-smoothed
proportions `(count_i + 1) / (N + n_bins)` of the `n_bins` equal-width bins
spanning the combined range, and all those proportions are strictly
positive, so every logarithm argument and denominator is positive and the
result is a (finite) real number. -/
theorem psi_laplace_finite (n : ℕ) (reference current : List ℚ)
    (h1 : reference ≠ []) (h2 : current ≠ []) :
    ∃ v, compute_psi n reference current = some v ∧
      (∀ i, 0 < laplaceProp (min (listMin reference) (listMin current))
          (max (listMax reference) (listMax current)) n reference i ∧
        0 < laplaceProp (min (listMin reference) (listMin current))
          (max (listMax reference) (listMax current)) n current i) ∧
      v = ((List.range n).map (fun i =>
        ((laplaceProp (min (listMin reference) (listMin current))
            (max (listMax reference) (listMax current)) n current i : ℝ) -
          (laplaceProp (min (listMin reference) (listMin current))
            (max (listMax reference) (listMax current)) n reference i : ℝ)) *
          Real.log ((laplaceProp (min (listMin reference) (listMin current))
              (max (listMax reference) (listMax current)) n current i : ℝ) /
            (laplaceProp (min (listMin reference) (listMin current))
              (max (listMax reference) (listMax current)) n reference i : ℝ)))).sum := by
  have hg : ¬ (reference = [] ∨ current = []) := by simp [h1, h2]
  unfold compute_psi
  rw [if_neg hg]
  exact ⟨_, rfl, fun i => ⟨laplaceProp_pos _ _ _ _ _ h1,
    laplaceProp_pos _ _ _ _ _ h2⟩, rfl⟩

/-- Witness for C5: the constant singleton arrays `[0]` and `[1]` (a
degenerate-range pair) still yield a PSI value. -/
theorem psi_laplace_finite_witness :
    ([0] : List ℚ) ≠ [] ∧ ∃ v, compute_psi 10 [0] [1] = some v :=
  ⟨by simp, by
    obtain ⟨v, hv, -, -⟩ := psi_laplace_finite 10 [0] [1] (by simp) (by simp)
    exact ⟨v, hv⟩⟩

/-! ## Lemmas for the Jensen-Shannon bounds (claim C7) -/

theorem jsEps_pos : 0 < jsEps := by unfold jsEps; norm_num

theorem densityHist_eq_map (lo hi : ℚ) (n : ℕ) (xs : List ℚ) :
    densityHist lo hi n xs = (histCounts lo hi n xs).map (fun (c : ℕ) =>
      (c : ℝ) / ((((hi - lo) / (n : ℚ) : ℚ) : ℝ) *
        ((histCounts lo hi n xs).sum : ℝ))) := rfl

theorem densityHist_length (lo hi : ℚ) (n : ℕ) (xs : List ℚ) :
    (densityHist lo hi n xs).length = n := by
  rw [densityHist_eq_map, List.length_map]
  simp only [histCounts, List.length_map, List.length_range]

theorem smoothNormalize_length (h : List ℝ) :
    (smoothNormalize h).length = h.length := by
  simp [smoothNormalize]

theorem list_sum_nonneg (l : List ℝ) (h : ∀ x ∈ l, 0 ≤ x) : 0 ≤ l.sum := by
  induction l with
  | nil => simp
  | cons a t ih =>
      have ha := h a (by simp)
      have ht := ih (fun x hx => h x (by simp [hx]))
      simp only [List.sum_cons]
      linarith

theorem densityHist_nonneg (lo hi : ℚ) (n : ℕ) (xs : List ℚ)
    (hle : lo ≤ hi) : ∀ x ∈ densityHist lo hi n xs, 0 ≤ x := by
  intro x hx
  rw [densityHist_eq_map] at hx
  obtain ⟨c, hc, rfl⟩ := List.mem_map.mp hx
  have h0 : (0 : ℚ) ≤ (hi - lo) / (n : ℚ) :=
    div_nonneg (by linarith) (by positivity)
  refine div_nonneg ?_ ?_
  · exact Nat.cast_nonneg c
  · exact mul_nonneg (by exact_mod_cast h0) (Nat.cast_nonneg _)

theorem sum_map_add_div (h : List ℝ) (e D : ℝ) :
    (h.map (fun x => (x + e) / D)).sum = (h.sum + e * h.length) / D := by
  induction h with
  | nil => simp
  | cons a t ih =>
      simp only [List.map_cons, List.sum_cons, List.length_cons, ih,
        div_add_div_same]
      congr 1
      push_cast
      ring

theorem smoothNormalize_sum (h : List ℝ)
    (hpos : h.sum + jsEps * (h.length : ℝ) ≠ 0) :
    (smoothNormalize h).sum = 1 := by
  unfold smoothNormalize
  rw [sum_map_add_div, div_self hpos]

theorem smoothNormalize_pos (h : List ℝ) (hne : h ≠ [])
    (hnn : ∀ x ∈ h, 0 ≤ x) : ∀ x ∈ smoothNormalize h, 0 < x := by
  intro x hx
  obtain ⟨a, ha, rfl⟩ := List.mem_map.mp hx
  have hsum : 0 ≤ h.sum := list_sum_nonneg h hnn
  have hlen : 0 < (h.length : ℝ) := by
    exact_mod_cast List.length_pos.mpr hne
  have hp : 0 < jsEps * (h.length : ℝ) := mul_pos jsEps_pos hlen
  exact div_pos (by have := hnn a ha; have := jsEps_pos; linarith)
    (by linarith)

theorem zip_avg_facts (P Q : List ℝ) (hlen : P.length = Q.length)
    (hP : ∀ x ∈ P, 0 < x) (hQ : ∀ x ∈ Q, 0 < x) :
    (∀ x ∈ P.zip ((P.zip Q).map (fun y => (y.1 + y.2) / 2)),
        0 < x.1 ∧ 0 < x.2 ∧ x.1 ≤ 2 * x.2) ∧
    (∀ x ∈ Q.zip ((P.zip Q).map (fun y => (y.1 + y.2) / 2)),
        0 < x.1 ∧ 0 < x.2 ∧ x.1 ≤ 2 * x.2) ∧
    ((P.zip Q).map (fun y => (y.1 + y.2) / 2)).sum = (P.sum + Q.sum) / 2 ∧
    ((P.zip Q).map (fun y => (y.1 + y.2) / 2)).length = P.length := by
  induction P generalizing Q with
  | nil =>
      cases Q with
      | nil => refine ⟨by simp, by simp, by norm_num, by simp⟩
      | cons b t => simp at hlen
  | cons a P' ih =>
      cases Q with
      | nil => simp at hlen
      | cons b Q' =>
          have hlen' : P'.length = Q'.length := by simpa using hlen
          have hP' : ∀ x ∈ P', 0 < x := fun x hx => hP x (by simp [hx])
          have hQ' : ∀ x ∈ Q', 0 < x := fun x hx => hQ x (by simp [hx])
          have ha : 0 < a := hP a (by simp)
          have hb : 0 < b := hQ b (by simp)
          obtain ⟨ih1, ih2, ih3, ih4⟩ := ih Q' hlen' hP' hQ'
          refine ⟨?_, ?_, ?_, ?_⟩
          · intro x hx
            simp only [List.zip_cons_cons, List.map_cons] at hx
            rcases List.mem_cons.mp hx with h' | h'
            · subst h'
              exact ⟨ha, by linarith, by linarith⟩
            · exact ih1 x h'
          · intro x hx
            simp only [List.zip_cons_cons, List.map_cons] at hx
            rcases List.mem_cons.mp hx with h' | h'
            · subst h'
              exact ⟨hb, by linarith, by linarith⟩
            · exact ih2 x h'
          · simp only [List.zip_cons_cons, List.map_cons, List.sum_cons, ih3]
            ring
          · simp only [List.zip_cons_cons, List.map_cons, List.length_cons,
              ih4]

theorem kl_pointwise_lower (p m : ℝ) (hp : 0 < p) (hm : 0 < m) :
    p - m ≤ p * Real.log (p / m) := by
  have h1 : Real.log (m / p) ≤ m / p - 1 :=
    Real.log_le_sub_one_of_pos (div_pos hm hp)
  have h2 : Real.log (p / m) = -Real.log (m / p) := by
    rw [← Real.log_inv, inv_div]
  have h4 : p * -(m / p - 1) ≤ p * -Real.log (m / p) :=
    mul_le_mul_of_nonneg_left (neg_le_neg h1) (le_of_lt hp)
  have h5 : p * -(m / p - 1) = p - m := by
    field_simp
  rw [h2]
  calc p - m = p * -(m / p - 1) := h5.symm
    _ ≤ p * -Real.log (m / p) := h4

theorem kl_pointwise_upper (p m : ℝ) (hp : 0 < p) (hm : 0 < m)
    (hpm : p ≤ 2 * m) : p * Real.log (p / m) ≤ p * Real.log 2 := by
  apply mul_le_mul_of_nonneg_left _ (le_of_lt hp)
  have hdiv : p / m ≤ 2 := (div_le_iff₀ hm).mpr (by linarith)
  exact Real.log_le_log (div_pos hp hm) hdiv

theorem sum_zip_sub (P M : List ℝ) (hlen : P.length = M.length) :
    ((P.zip M).map (fun x => x.1 - x.2)).sum = P.sum - M.sum := by
  induction P generalizing M with
  | nil =>
      cases M with
      | nil => simp
      | cons b t => simp at hlen
  | cons a P' ih =>
      cases M with
      | nil => simp at hlen
      | cons b M' =>
          have := ih M' (by simpa using hlen)
          simp only [List.zip_cons_cons, List.map_cons, List.sum_cons, this]
          ring

theorem sum_zip_fst_mul (P M : List ℝ) (c : ℝ) (hlen : P.length = M.length) :
    ((P.zip M).map (fun x => x.1 * c)).sum = P.sum * c := by
  induction P generalizing M with
  | nil =>
      cases M with
      | nil => simp
      | cons b t => simp at hlen
  | cons a P' ih =>
      cases M with
      | nil => simp at hlen
      | cons b M' =>
          have := ih M' (by simpa using hlen)
          simp only [List.zip_cons_cons, List.map_cons, List.sum_cons, this]
          ring

theorem klSum_nonneg (P M : List ℝ) (hlen : P.length = M.length)
    (hpos : ∀ x ∈ P.zip M, 0 < x.1 ∧ 0 < x.2) (hsum : P.sum = M.sum) :
    0 ≤ ((P.zip M).map (fun x => x.1 * Real.log (x.1 / x.2))).sum := by
  have h1 : ((P.zip M).map (fun x => x.1 - x.2)).sum ≤
      ((P.zip M).map (fun x => x.1 * Real.log (x.1 / x.2))).sum := by
    apply List.sum_le_sum
    intro i hi
    exact kl_pointwise_lower i.1 i.2 (hpos i hi).1 (hpos i hi).2
  rw [sum_zip_sub P M hlen, hsum] at h1
  simpa using h1

theorem klSum_le_log_two (P M : List ℝ) (hlen : P.length = M.length)
    (hpos : ∀ x ∈ P.zip M, 0 < x.1 ∧ 0 < x.2 ∧ x.1 ≤ 2 * x.2) :
    ((P.zip M).map (fun x => x.1 * Real.log (x.1 / x.2))).sum ≤
      Real.log 2 * P.sum := by
  have h1 : ((P.zip M).map (fun x => x.1 * Real.log (x.1 / x.2))).sum ≤
      ((P.zip M).map (fun x => x.1 * Real.log 2)).sum := by
    apply List.sum_le_sum
    intro i hi
    exact kl_pointwise_upper i.1 i.2 (hpos i hi).1 (hpos i hi).2.1
      (hpos i hi).2.2
  rw [sum_zip_fst_mul P M _ hlen] at h1
  linarith

theorem scipyEntropy_eq (P M : List ℝ) (hp : P.sum = 1) (hm : M.sum = 1) :
    scipyEntropy P M =
      ((P.zip M).map (fun x => x.1 * Real.log (x.1 / x.2))).sum := by
  unfold scipyEntropy
  rw [hp, hm]
  simp [div_one]

theorem mem_zip_self {α : Type} (P : List α) (x : α × α) (hx : x ∈ P.zip P) :
    x.1 = x.2 ∧ x.1 ∈ P := by
  induction P with
  | nil => cases hx
  | cons a t ih =>
      rw [List.zip_cons_cons] at hx
      rcases List.mem_cons.mp hx with h | h
      · subst h
        exact ⟨rfl, by simp⟩
      · obtain ⟨h1, h2⟩ := ih h
        exact ⟨h1, by simp [h2]⟩

theorem scipyEntropy_self (P : List ℝ) (hP : ∀ x ∈ P, 0 < x) :
    scipyEntropy P P = 0 := by
  unfold scipyEntropy
  apply List.sum_eq_zero
  intro y hy
  obtain ⟨z, hz, rfl⟩ := List.mem_map.mp hy
  obtain ⟨hzz, hzmem⟩ := mem_zip_self P z hz
  show z.1 / P.sum * Real.log ((z.1 / P.sum) / (z.2 / P.sum)) = 0
  rw [← hzz]
  by_cases hS : P.sum = 0
  · simp [hS]
  · have hz1 : 0 < z.1 := hP z.1 hzmem
    rw [div_self (div_ne_zero (ne_of_gt hz1) hS), Real.log_one, mul_zero]

theorem zip_avg_self (P : List ℝ) :
    (P.zip P).map (fun y => (y.1 + y.2) / 2) = P := by
  induction P with
  | nil => simp
  | cons a t ih =>
      rw [List.zip_cons_cons, List.map_cons, ih]
      congr 1
      ring

theorem jsDistance_self (P : List ℝ) (hP : ∀ x ∈ P, 0 < x) :
    jsDistance P P = 0 := by
  unfold jsDistance
  rw [zip_avg_self, scipyEntropy_self P hP]
  norm_num [Real.sqrt_zero]

theorem jsDistance_bounds (P Q : List ℝ) (hlen : P.length = Q.length)
    (hP : ∀ x ∈ P, 0 < x) (hQ : ∀ x ∈ Q, 0 < x)
    (hPs : P.sum = 1) (hQs : Q.sum = 1) :
    0 ≤ jsDistance P Q ∧ jsDistance P Q ≤ Real.sqrt (Real.log 2) := by
  obtain ⟨hzP, hzQ, hMs, hMl⟩ := zip_avg_facts P Q hlen hP hQ
  have hMsum : ((P.zip Q).map (fun y => (y.1 + y.2) / 2)).sum = 1 := by
    rw [hMs, hPs, hQs]; norm_num
  have hlenPM : P.length =
      ((P.zip Q).map (fun y => (y.1 + y.2) / 2)).length := hMl.symm
  have hlenQM : Q.length =
      ((P.zip Q).map (fun y => (y.1 + y.2) / 2)).length :=
    (hMl.trans hlen).symm
  have hpos1 : ∀ x ∈ P.zip ((P.zip Q).map (fun y => (y.1 + y.2) / 2)),
      0 < x.1 ∧ 0 < x.2 := fun x hx => ⟨(hzP x hx).1, (hzP x hx).2.1⟩
  have hpos2 : ∀ x ∈ Q.zip ((P.zip Q).map (fun y => (y.1 + y.2) / 2)),
      0 < x.1 ∧ 0 < x.2 := fun x hx => ⟨(hzQ x hx).1, (hzQ x hx).2.1⟩
  have hlow1 := klSum_nonneg P _ hlenPM hpos1 (hPs.trans hMsum.symm)
  have hlow2 := klSum_nonneg Q _ hlenQM hpos2 (hQs.trans hMsum.symm)
  have hup1 := klSum_le_log_two P _ hlenPM hzP
  have hup2 := klSum_le_log_two Q _ hlenQM hzQ
  rw [hPs, mul_one] at hup1
  rw [hQs, mul_one] at hup2
  unfold jsDistance
  rw [scipyEntropy_eq P _ hPs hMsum, scipyEntropy_eq Q _ hQs hMsum]
  constructor
  · exact Real.sqrt_nonneg _
  · exact Real.sqrt_le_sqrt (by linarith)

theorem compute_jensen_shannon_eq (n : ℕ) (reference current : List ℚ)
    (h1 : reference ≠ []) (h2 : current ≠ [])
    (hne : min (listMin reference) (listMin current) ≠
      max (listMax reference) (listMax current)) :
    compute_jensen_shannon n reference current =
      some (jsDistance
        (smoothNormalize (densityHist (min (listMin reference) (listMin current))
          (max (listMax reference) (listMax current)) n reference))
        (smoothNormalize (densityHist (min (listMin reference) (listMin current))
          (max (listMax reference) (listMax current)) n current))) := by
  unfold compute_jensen_shannon
  rw [if_neg (by simp [h1, h2])]
  exact if_neg hne

theorem smoothDensity_facts (lo hi : ℚ) (n : ℕ) (xs : List ℚ)
    (hn : 0 < n) (hle : lo ≤ hi) :
    (∀ x ∈ smoothNormalize (densityHist lo hi n xs), 0 < x) ∧
    (smoothNormalize (densityHist lo hi n xs)).sum = 1 ∧
    (smoothNormalize (densityHist lo hi n xs)).length = n := by
  have hlen : (densityHist lo hi n xs).length = n := densityHist_length lo hi n xs
  have hpos0 : 0 < (densityHist lo hi n xs).length := by rw [hlen]; exact hn
  have hne : densityHist lo hi n xs ≠ [] := by
    intro h
    rw [h] at hpos0
    simp at hpos0
  have hnn := densityHist_nonneg lo hi n xs hle
  have hpos := smoothNormalize_pos _ hne hnn
  have hsum : (smoothNormalize (densityHist lo hi n xs)).sum = 1 := by
    apply smoothNormalize_sum
    have ha : 0 ≤ (densityHist lo hi n xs).sum := list_sum_nonneg _ hnn
    have hb : 0 < jsEps * (((densityHist lo hi n xs).length : ℕ) : ℝ) := by
      apply mul_pos jsEps_pos
      rw [hlen]
      exact_mod_cast hn
    linarith
  exact ⟨hpos, hsum, (smoothNormalize_length _).trans hlen⟩

/-- C7 counterexample: for the constant (single-value) arrays `[1]` and
`[1]` — non-empty numeric arrays with identical distributions — the combined
range is degenerate, the `density=True` histogram divides by the zero bin
widths, and the source returns `NaN`: no real value is produced, so the
result is neither in `[0, sqrt (ln 2)]` nor approximately `0` as the claim
requires. -/
theorem js_bounds_counterexample :
    compute_jensen_shannon 10 [(1 : ℚ)] [(1 : ℚ)] = none ∧
      ¬ ∃ v, compute_jensen_shannon 10 [(1 : ℚ)] [(1 : ℚ)] = some v := by
  constructor
  · rfl
  · rintro ⟨v, hv⟩
    rw [show compute_jensen_shannon 10 [(1 : ℚ)] [(1 : ℚ)] = none from rfl]
      at hv
    exact Option.noConfusion hv

/-- C7 amended: for every pair of non-empty numeric arrays whose combined
range is non-degenerate (strictly positive width, so the density
normalization is defined), `compute_jensen_shannon` returns a value in
`[0, sqrt (ln 2)]`, and returns exactly `0` when reference and current are
identical; for a degenerate (constant) combined range the source instead
produces `NaN` (modelled as `none`). -/
theorem js_bounds_amended (n : ℕ) (reference current : List ℚ)
    (hn : 0 < n) (h1 : reference ≠ []) (h2 : current ≠ [])
    (hlt : min (listMin reference) (listMin current) <
      max (listMax reference) (listMax current)) :
    ∃ v, compute_jensen_shannon n reference current = some v ∧
      0 ≤ v ∧ v ≤ Real.sqrt (Real.log 2) ∧
      (reference = current → v = 0) := by
  obtain ⟨hPpos, hPsum, hPlen⟩ :=
    smoothDensity_facts _ _ n reference hn (le_of_lt hlt)
  obtain ⟨hQpos, hQsum, hQlen⟩ :=
    smoothDensity_facts _ _ n current hn (le_of_lt hlt)
  have hlen : (smoothNormalize (densityHist
      (min (listMin reference) (listMin current))
      (max (listMax reference) (listMax current)) n reference)).length =
    (smoothNormalize (densityHist
      (min (listMin reference) (listMin current))
      (max (listMax reference) (listMax current)) n current)).length := by
    rw [hPlen, hQlen]
  have hb := jsDistance_bounds _ _ hlen hPpos hQpos hPsum hQsum
  refine ⟨_, compute_jensen_shannon_eq n reference current h1 h2
    (ne_of_lt hlt), hb.1, hb.2, ?_⟩
  intro hrc
  subst hrc
  exact jsDistance_self _ hPpos

/-- Witness for the amended C7: identical two-point arrays `[0, 1]` give a
Jensen-Shannon distance of exactly `0`, inside the bounds. -/
theorem js_bounds_amended_witness :
    ∃ v, compute_jensen_shannon 10 [(0 : ℚ), 1] [(0 : ℚ), 1] = some v ∧
      0 ≤ v ∧ v ≤ Real.sqrt (Real.log 2) ∧ v = 0 := by
  obtain ⟨v, hv, h0, hb, hid⟩ := js_bounds_amended 10 [0, 1] [0, 1]
    (by norm_num) (by simp) (by simp)
    (by norm_num [listMin, listMax, List.foldl])
  exact ⟨v, hv, h0, hb, hid rfl⟩
